import Mathlib

/-!
A verification development for the `jsondescriber` Go package
(`src/jsondescriber.go`), shallowly embedded in Lean 4.

Raw JSON bytes are modelled as `List Char` (the package only ever inspects
ASCII bytes).  Go's `encoding/json.Valid` is modelled by a fuel-indexed
recursive-descent scanner (`pv`) implementing the same grammar as Go's
scanner: optional surrounding whitespace (space, tab, CR, LF), objects,
arrays, strings with the scanner's escape rules, numbers
(`-? (0 | [1-9][0-9]*) (. [0-9]+)? ([eE] [+-]? [0-9]+)?`), and the literals
`true`, `false`, `null`.  Go's `nil`-returning map lookups are modelled with
`Option`; the `(data[0])` read in `TypeOf`, which would panic on an empty
slice, is modelled by `TypeOf` returning `none` exactly in the panic case.
-/

namespace JsonDescriber

/-- Whitespace bytes skipped by Go's json scanner (`isSpace`). -/
def isWS (c : Char) : Bool :=
  c = ' ' || c = '\t' || c = '\n' || c = '\r'

/-- Drop leading whitespace, as Go's scanner does between tokens. -/
def skipWS : List Char → List Char
  | [] => []
  | c :: r => if isWS c then skipWS r else c :: r

/-- Hex digit as accepted in a `\\uXXXX` escape by Go's scanner. -/
def isHex (c : Char) : Bool :=
  c.isDigit || ('a' ≤ c && c ≤ 'f') || ('A' ≤ c && c ≤ 'F')

/-- Scan a JSON string body (the part after the opening quote), returning
the body characters (escapes kept verbatim) and the input remaining after
the closing quote.  Mirrors Go's `stateInString`/escape states: control
bytes below 0x20 are rejected, escapes are limited to the scanner's table. -/
def takeStringBody : List Char → Option (List Char × List Char)
  | [] => none
  | '\\' :: 'u' :: a :: b :: c :: d :: r =>
    if isHex a && isHex b && isHex c && isHex d then
      (takeStringBody r).map (fun pr => ('\\' :: 'u' :: a :: b :: c :: d :: pr.1, pr.2))
    else none
  | '\\' :: e :: r =>
    if e = '\"' || e = '\\' || e = '/' || e = 'b' || e = 'f' || e = 'n' || e = 'r' || e = 't' then
      (takeStringBody r).map (fun pr => ('\\' :: e :: pr.1, pr.2))
    else none
  | c :: r =>
    if c = '\"' then some ([], r)
    else if 0x20 ≤ c.toNat then (takeStringBody r).map (fun pr => (c :: pr.1, pr.2))
    else none

/-- One or more decimal digits, returning the rest (Go's `state1`/`stateDot0`
style digit runs). -/
def digits1 : List Char → Option (List Char)
  | [] => none
  | c :: r => if c.isDigit then some (r.dropWhile Char.isDigit) else none

/-- Integer part of a JSON number after the optional sign:
`0` or a nonzero digit followed by a digit run. -/
def parseNumHead : List Char → Option (List Char)
  | [] => none
  | c :: r =>
    if c = '0' then some r
    else if c.isDigit then some (r.dropWhile Char.isDigit) else none

/-- Optional fraction part: a `.` must be followed by at least one digit. -/
def parseFrac : List Char → Option (List Char)
  | '.' :: r => digits1 r
  | s => some s

/-- Optional exponent part: `e`/`E`, optional sign, at least one digit. -/
def parseExp : List Char → Option (List Char)
  | [] => some []
  | c :: r =>
    if c = 'e' || c = 'E' then
      match r with
      | [] => none
      | s :: r2 => if s = '+' || s = '-' then digits1 r2 else digits1 (s :: r2)
    else some (c :: r)

/-- A JSON number per Go's scanner grammar, returning the remaining input. -/
def parseNumber (s : List Char) : Option (List Char) :=
  let s1 := match s with
    | c :: r => if c = '-' then r else c :: r
    | [] => []
  match parseNumHead s1 with
  | none => none
  | some r =>
    match parseFrac r with
    | none => none
    | some r2 => parseExp r2

/-- The character denoted by a single-character escape in a JSON string
(`\"`, `\\` and `\/` denote themselves). -/
def escChar (e : Char) : Char :=
  if e = 'b' then '\x08'
  else if e = 'f' then '\x0c'
  else if e = 'n' then '\n'
  else if e = 'r' then '\r'
  else if e = 't' then '\t'
  else e

/-- Numeric value of a hex digit. -/
def hexVal (c : Char) : Nat :=
  if c.isDigit then c.toNat - '0'.toNat
  else if 'a' ≤ c ∧ c ≤ 'f' then c.toNat - 'a'.toNat + 10
  else if 'A' ≤ c ∧ c ≤ 'F' then c.toNat - 'A'.toNat + 10
  else 0

/-- Decode the escapes of a scanned string body, as `json.Unmarshal` does
when producing the `map[string]json.RawMessage` keys.  (`\\uXXXX` escapes are
decoded to the scalar of that value; Go's UTF-16 surrogate-pair combining is
not reproduced — no claim depends on it.) -/
def decodeChars : List Char → List Char
  | [] => []
  | '\\' :: 'u' :: a :: b :: c :: d :: r =>
    Char.ofNat (hexVal a * 4096 + hexVal b * 256 + hexVal c * 16 + hexVal d) :: decodeChars r
  | '\\' :: e :: r => escChar e :: decodeChars r
  | c :: r => c :: decodeChars r

/-- A Go map key decoded from a scanned string body. -/
def decodeKey (body : List Char) : String :=
  String.mk (decodeChars body)

/-- Match an exact literal tail (used for `true`, `false`, `null`). -/
def expectLit : List Char → List Char → Option (List Char)
  | [], s => some s
  | _ :: _, [] => none
  | c :: cs, x :: xs => if x = c then expectLit cs xs else none

/-- Parsing mode: a single value, an object's member list, or an array's
element list. -/
inductive PMode
  | val
  | mems
  | elems

/-- The scanner.  `pv fuel PMode.val s` consumes one JSON value from `s`
(whose first character must be the value's first character) and returns the
remaining input; the member/element lists of the result are empty.
`pv fuel PMode.mems s` consumes `key : value (, key : value)* \x7d` and also
collects the decoded keys with the verbatim value fragments, mirroring what
`json.Unmarshal` into `map[string]json.RawMessage` produces one level deep.
`pv fuel PMode.elems s` does the same for array elements.  Whitespace
handling between tokens follows Go's scanner. -/
def pv : Nat → PMode → List Char →
    Option (List (String × List Char) × List (List Char) × List Char)
  | 0, _, _ => none
  | Nat.succ fuel, PMode.val, s =>
    match s with
    | [] => none
    | c :: r =>
      if c = '\x7b' then
        match skipWS r with
        | [] => none
        | c2 :: r2 =>
          if c2 = '\x7d' then some ([], [], r2)
          else (pv fuel PMode.mems (c2 :: r2)).map (fun t => ([], [], t.2.2))
      else if c = '[' then
        match skipWS r with
        | [] => none
        | c2 :: r2 =>
          if c2 = ']' then some ([], [], r2)
          else (pv fuel PMode.elems (c2 :: r2)).map (fun t => ([], [], t.2.2))
      else if c = '\"' then (takeStringBody r).map (fun pr => ([], [], pr.2))
      else if c = 't' then (expectLit ['r', 'u', 'e'] r).map (fun rest => ([], [], rest))
      else if c = 'f' then (expectLit ['a', 'l', 's', 'e'] r).map (fun rest => ([], [], rest))
      else if c = 'n' then (expectLit ['u', 'l', 'l'] r).map (fun rest => ([], [], rest))
      else if c = '-' ∨ c.isDigit then (parseNumber (c :: r)).map (fun rest => ([], [], rest))
      else none
  | Nat.succ fuel, PMode.mems, s =>
    match s with
    | [] => none
    | c :: r =>
      if c = '\"' then
        match takeStringBody r with
        | none => none
        | some (body, r1) =>
          match skipWS r1 with
          | [] => none
          | c2 :: r2 =>
            if c2 = ':' then
              let sV := skipWS r2
              match pv fuel PMode.val sV with
              | none => none
              | some (_, _, restV) =>
                let frag := sV.take (sV.length - restV.length)
                match skipWS restV with
                | [] => none
                | c3 :: r3 =>
                  if c3 = ',' then
                    match skipWS r3 with
                    | [] => none
                    | c4 :: r4 =>
                      (pv fuel PMode.mems (c4 :: r4)).map
                        (fun t => ((decodeKey body, frag) :: t.1, t.2.1, t.2.2))
                  else if c3 = '\x7d' then some ([(decodeKey body, frag)], [], r3)
                  else none
            else none
      else none
  | Nat.succ fuel, PMode.elems, s =>
    match pv fuel PMode.val s with
    | none => none
    | some (_, _, restV) =>
      let frag := s.take (s.length - restV.length)
      match skipWS restV with
      | [] => none
      | c :: r =>
        if c = ',' then
          match skipWS r with
          | [] => none
          | c2 :: r2 =>
            (pv fuel PMode.elems (c2 :: r2)).map (fun t => (t.1, frag :: t.2.1, t.2.2))
        else if c = ']' then some ([], [frag], r)
        else none

/-- Fuel that is always sufficient for `pv` on `data`: every recursive call
either consumes at least one input character first or is the single
element-list hop after `[`, so the call depth is at most twice the input
length. -/
def fuelFor (data : List Char) : Nat :=
  2 * data.length + 2

/-- Model of Go's `json.Valid`: one JSON value surrounded by optional
whitespace and nothing else. -/
def valid (data : List Char) : Bool :=
  match pv (fuelFor data) PMode.val (skipWS data) with
  | some t => (skipWS t.2.2).isEmpty
  | none => false

/-- The `heuristics` map of the package: Go map lookup with the zero value
`""` for any character not in the table. -/
def heuristics (c : Char) : String :=
  if c = '\x7b' then "object"
  else if c = '[' then "array"
  else if c = '\"' then "string"
  else if c = 't' then "true"
  else if c = 'f' then "false"
  else if c = 'n' then "null"
  else ""

/-- The error message produced by `TypeOf` on invalid input. -/
def notValidJson : String := "not valid json"

/-- The kind `TypeOf` derives from the first byte: the heuristics table
entry, with the Go zero value `""` (no table entry) replaced by
`"number"`. -/
def kindOfChar (c : Char) : String :=
  if heuristics c = "" then "number" else heuristics c

/-- `TypeOf` from the package: validate, then classify from `data[0]`.
The result pairs the returned type string with the returned error
(`none` = Go's `nil`).  The outer `Option` models the `data[0]` slice read:
`none` is the case in which that read would panic (empty slice reached past
the validity check); `TypeOf_total` below proves it never happens. -/
def TypeOf (data : List Char) : Option (String × Option String) :=
  if valid data = false then some ("", some notValidJson)
  else
    match data with
    | [] => none
    | c :: _ => some (kindOfChar c, none)

/-- `TypeOf` with the (unreachable, see `TypeOf_total`) panic case defaulted,
for use by the callers that dereference its result. -/
def typeOfD (data : List Char) : String × Option String :=
  (TypeOf data).getD ("", some notValidJson)

/-- The element kind the package ascribes to a raw fragment, as used for
members by `Describe`, `Inventory`, `Diff` and `DiffCount` (all of which
dereference the type and discard the error). -/
def fragKind (v : List Char) : String :=
  (typeOfD v).1

/-- A syntactically valid JSON numeric literal (integer, decimal, exponent
or negative form, per the scanner's number grammar) possibly followed by
whitespace only. -/
def isNumericLit (data : List Char) : Bool :=
  match parseNumber data with
  | some rest => (skipWS rest).isEmpty
  | none => false

/-- `JsonDescription` from the package: the element type and the per-kind
member tally.  Go's `map[string]uint` is modelled as an association list
with unique keys, built by `bump`. -/
structure JsonDescription where
  Element : String
  Members : List (String × Nat)
deriving DecidableEq, Repr

/-- `NewJsonDescription`: element `"undefined"` and an empty counter. -/
def NewJsonDescription : JsonDescription :=
  ⟨"undefined", []⟩

/-- `descr.Members[et] += 1` on the association-list model of the Go map:
increment in place if present, otherwise append with count 1. -/
def bump : List (String × Nat) → String → List (String × Nat)
  | [], k => [(k, 1)]
  | (k', n) :: rest, k =>
    if k' = k then (k', n + 1) :: rest else (k', n) :: bump rest k

/-- Total of all counts in a tally. -/
def sumTally (m : List (String × Nat)) : Nat :=
  (m.map Prod.snd).sum

/-- `descElem` from the package: the list of `"<count> <kind>"` phrases,
plural `s` appended when the count exceeds 1, zero counts omitted. -/
def descElem (counts : List (String × Nat)) : List String :=
  counts.filterMap (fun kv =>
    if 1 < kv.2 then some (Nat.repr kv.2 ++ " " ++ kv.1 ++ "s")
    else if kv.2 = 1 then some (Nat.repr kv.2 ++ " " ++ kv.1)
    else none)

/-- `strings.Join` on the list model. -/
def joinSep (sep : String) : List String → String
  | [] => ""
  | [x] => x
  | x :: xs => x ++ sep ++ joinSep sep xs

/-- `Friendly` from the package: English rendering of a `JsonDescription`.
Go's `inv[:count-1]` and `inv[count-1]` are `take (count-1)` and
`getD (count-1)` on the phrase list. -/
def Friendly (jd : JsonDescription) : String :=
  if jd.Element = "string" ∨ jd.Element = "number" then "a " ++ jd.Element
  else if jd.Element = "true" ∨ jd.Element = "false" ∨ jd.Element = "null" then
    "a literal " ++ jd.Element
  else if jd.Element = "object" ∨ jd.Element = "array" then
    let inv := descElem jd.Members
    let count := inv.length
    if count = 1 then "an " ++ jd.Element ++ " with " ++ inv.getD 0 ""
    else if count = 2 then "an " ++ jd.Element ++ " with " ++ joinSep " and " inv
    else if 2 < count then
      "an " ++ jd.Element ++ " with " ++ joinSep ", " (inv.take (count - 1)) ++
        ", and " ++ inv.getD (count - 1) ""
    else "an empty " ++ jd.Element
  else "undefined"

/-- Assignment `m[k] = v` on the association-list model of a Go map:
replace in place or append. -/
def goInsert (m : List (String × α)) (k : String) (v : α) : List (String × α) :=
  match m with
  | [] => [(k, v)]
  | (k', v') :: r => if k' = k then (k, v) :: r else (k', v') :: goInsert r k v

/-- A Go map built by assigning a list of pairs in order (later duplicate
keys overwrite earlier ones), as `json.Unmarshal` fills
`map[string]json.RawMessage`. -/
def goMap (pairs : List (String × α)) : List (String × α) :=
  pairs.foldl (fun m kv => goInsert m kv.1 kv.2) []

/-- One-level parse of an object document into key/fragment pairs in source
order (before Go-map deduplication), as in `Describe`'s object branch. -/
def parseObjPairs (data : List Char) : Option (List (String × List Char)) :=
  match skipWS data with
  | [] => none
  | c :: r =>
    if c = '\x7b' then
      match skipWS r with
      | [] => none
      | c2 :: r2 =>
        if c2 = '\x7d' then some []
        else (pv (fuelFor data) PMode.mems (c2 :: r2)).map (fun t => t.1)
    else none

/-- One-level parse of an array document into its element fragments, as in
`Describe`'s array branch (`RawArray`). -/
def parseArrFrags (data : List Char) : Option (List (List Char)) :=
  match skipWS data with
  | [] => none
  | c :: r =>
    if c = '[' then
      match skipWS r with
      | [] => none
      | c2 :: r2 =>
        if c2 = ']' then some []
        else (pv (fuelFor data) PMode.elems (c2 :: r2)).map (fun t => t.2.1)
    else none

/-- `Describe` from the package: classify the whole input (bailing out with
the default description on error), then, for containers, tally the kind of
every immediate member.  `json.Unmarshal`'s error is ignored in Go, so a
failed one-level parse leaves the empty member map (`getD []`). -/
def Describe (data : List Char) : JsonDescription × Option String :=
  let t := typeOfD data
  match t.2 with
  | some e => (NewJsonDescription, some e)
  | none =>
    let memberKinds : List String :=
      if t.1 = "object" then
        (goMap ((parseObjPairs data).getD [])).map (fun kv => fragKind kv.2)
      else if t.1 = "array" then
        ((parseArrFrags data).getD []).map (fun f => fragKind f)
      else []
    (⟨t.1, memberKinds.foldl bump []⟩, none)

/-- `RawObject` from the package: `map[string]json.RawMessage`, modelled as
an association list with pairwise-distinct keys.  A key absent from the list
is Go's `nil` fragment; present fragments are the (possibly empty) raw
bytes. -/
structure RawObject where
  entries : List (String × List Char)
  nodupKeys : (entries.map Prod.fst).Nodup

/-- Go map lookup on an association list: the value at `k`, or `none`
(Go's `nil`) when absent. -/
def findKey (k : String) : List (String × α) → Option α
  | [] => none
  | (k', v) :: r => if k' = k then some v else findKey k r

/-- `Inventory` from the package: map every key to the element kind of its
value, discarding the classification error (`typ, _ = TypeOf(...)`); the
result is only the mapping. -/
def Inventory (o : RawObject) : List (String × String) :=
  o.entries.map (fun kv => (kv.1, fragKind kv.2))

/-- The `that[k] == nil` test of `Diff`'s first loop. -/
def delCond (n : RawObject) (kv : String × List Char) : Bool :=
  (findKey kv.1 n.entries).isNone

/-- The type-changed test of `Diff`: key present in both, kinds differ. -/
def typCond (n : RawObject) (kv : String × List Char) : Bool :=
  match findKey kv.1 n.entries with
  | none => false
  | some w => if fragKind kv.2 = fragKind w then false else true

/-- The modified test of `Diff`: key present in both, kinds equal, raw
bytes unequal. -/
def modCond (n : RawObject) (kv : String × List Char) : Bool :=
  match findKey kv.1 n.entries with
  | none => false
  | some w => if fragKind kv.2 = fragKind w then (if kv.2 = w then false else true) else false

/-- The `this[k] == nil` test of `Diff`'s second loop. -/
def addCond (o : RawObject) (kv : String × List Char) : Bool :=
  (findKey kv.1 o.entries).isNone

/-- The four key lists returned by `Diff` (map keys `added`, `deleted`,
`modified`, `typechanged`). -/
structure DiffResult where
  added : List String
  deleted : List String
  modified : List String
  typechanged : List String
deriving DecidableEq, Repr

/-- `Diff` from the package: one pass over the old object's keys filling
`deleted`/`typechanged`/`modified`, one pass over the new object's keys
filling `added`. -/
def Diff (o n : RawObject) : DiffResult where
  added := n.entries.filterMap (fun kv => if addCond o kv then some kv.1 else none)
  deleted := o.entries.filterMap (fun kv => if delCond n kv then some kv.1 else none)
  modified := o.entries.filterMap (fun kv => if modCond n kv then some kv.1 else none)
  typechanged := o.entries.filterMap (fun kv => if typCond n kv then some kv.1 else none)

/-- The four counters returned by `DiffCount`. -/
structure DiffCounts where
  added : Nat
  deleted : Nat
  modified : Nat
  typechanged : Nat
deriving DecidableEq, Repr

/-- `DiffCount` from the package: the same two passes as `Diff`, keeping
only tallies. -/
def DiffCount (o n : RawObject) : DiffCounts where
  added := n.entries.countP (addCond o)
  deleted := o.entries.countP (delCond n)
  modified := o.entries.countP (modCond n)
  typechanged := o.entries.countP (typCond n)

/-! ### Helper lemmas -/

theorem findKey_eq_some_iff {α : Type} {l : List (String × α)}
    (hnd : (l.map Prod.fst).Nodup) (k : String) (v : α) :
    findKey k l = some v ↔ (k, v) ∈ l := by
  induction l with
  | nil => simp [findKey]
  | cons hd t ih =>
    obtain ⟨k', v'⟩ := hd
    simp only [List.map_cons, List.nodup_cons] at hnd
    by_cases hk : k' = k
    · subst hk
      have hfk : findKey k' ((k', v') :: t) = some v' := by simp [findKey]
      rw [hfk, List.mem_cons]
      constructor
      · intro h
        cases Option.some.inj h
        exact Or.inl rfl
      · rintro (h | hmem)
        · injection h with h1 h2
          rw [h2]
        · exact absurd (List.mem_map.mpr ⟨(k', v), hmem, rfl⟩) hnd.1
    · have hfk : findKey k ((k', v') :: t) = findKey k t := by simp [findKey, hk]
      rw [hfk, List.mem_cons, ih hnd.2]
      constructor
      · exact Or.inr
      · rintro (h | hmem)
        · injection h with h1 h2
          exact absurd h1.symm hk
        · exact hmem

theorem findKey_eq_none_iff {α : Type} (l : List (String × α)) (k : String) :
    findKey k l = none ↔ k ∉ l.map Prod.fst := by
  induction l with
  | nil => simp [findKey]
  | cons hd t ih =>
    obtain ⟨k', v'⟩ := hd
    by_cases hk : k' = k
    · subst hk
      simp [findKey]
    · simp only [findKey, if_neg hk, List.map_cons, List.mem_cons]
      rw [ih]
      constructor
      · intro h hcase
        rcases hcase with h1 | h2
        · exact hk h1.symm
        · exact h h2
      · intro h hmem
        exact h (Or.inr hmem)

theorem findKey_map {α β : Type} (f : α → β) (k : String) (l : List (String × α)) :
    findKey k (l.map (fun kv => (kv.1, f kv.2))) = (findKey k l).map f := by
  induction l with
  | nil => simp [findKey]
  | cons hd t ih =>
    by_cases hk : hd.1 = k
    · simp [findKey, hk]
    · simp [findKey, hk, ih]

theorem mem_filterMap_guard {α : Type} (p : String × α → Bool) (l : List (String × α))
    (k : String) :
    k ∈ l.filterMap (fun kv => if p kv then some kv.1 else none) ↔
      ∃ v, (k, v) ∈ l ∧ p (k, v) = true := by
  rw [List.mem_filterMap]
  constructor
  · rintro ⟨⟨k', v⟩, hmem, hf⟩
    by_cases hp : p (k', v) = true
    · rw [if_pos hp] at hf
      obtain rfl : k' = k := Option.some.injEq _ _ ▸ hf
      exact ⟨v, hmem, hp⟩
    · rw [if_neg hp] at hf
      exact absurd hf (Option.noConfusion)
  · rintro ⟨v, hmem, hp⟩
    exact ⟨(k, v), hmem, by rw [if_pos hp]⟩

theorem length_filterMap_guard {α : Type} (p : String × α → Bool) (l : List (String × α)) :
    (l.filterMap (fun kv => if p kv then some kv.1 else none)).length = l.countP p := by
  induction l with
  | nil => simp
  | cons hd t ih =>
    by_cases hp : p hd = true
    · simp [List.filterMap_cons, List.countP_cons, hp, ih]
    · simp [List.filterMap_cons, List.countP_cons, hp, ih]

theorem nodup_filterMap_guard {α : Type} (p : String × α → Bool) (l : List (String × α))
    (hnd : (l.map Prod.fst).Nodup) :
    (l.filterMap (fun kv => if p kv then some kv.1 else none)).Nodup := by
  induction l with
  | nil => simp
  | cons hd t ih =>
    simp only [List.map_cons, List.nodup_cons] at hnd
    rw [List.filterMap_cons]
    by_cases hp : p hd = true
    · rw [if_pos hp]
      refine List.Nodup.cons ?_ (ih hnd.2)
      intro hmem
      rw [mem_filterMap_guard] at hmem
      obtain ⟨v, hv, -⟩ := hmem
      exact hnd.1 (List.mem_map.mpr ⟨(hd.1, v), hv, rfl⟩)
    · rw [if_neg hp]
      exact ih hnd.2

theorem sumTally_bump (m : List (String × Nat)) (k : String) :
    sumTally (bump m k) = sumTally m + 1 := by
  induction m with
  | nil => simp [bump, sumTally]
  | cons hd t ih =>
    obtain ⟨k', n⟩ := hd
    by_cases hk : k' = k
    · simp [bump, hk, sumTally]
      omega
    · simp [bump, hk, sumTally] at ih ⊢
      omega

theorem sumTally_foldl (ks : List String) (m : List (String × Nat)) :
    sumTally (ks.foldl bump m) = sumTally m + ks.length := by
  induction ks generalizing m with
  | nil => simp
  | cons k ks ih =>
    rw [List.foldl_cons, ih, sumTally_bump, List.length_cons]
    omega

theorem typCond_eq_true_iff (n : RawObject) (k : String) (v : List Char) :
    typCond n (k, v) = true ↔
      ∃ w, findKey k n.entries = some w ∧ fragKind v ≠ fragKind w := by
  unfold typCond
  cases h : findKey k n.entries with
  | none => simp [h]
  | some w =>
    by_cases heq : fragKind v = fragKind w
    · simp [h, heq]
    · simp [h, heq]

theorem modCond_eq_true_iff (n : RawObject) (k : String) (v : List Char) :
    modCond n (k, v) = true ↔
      ∃ w, findKey k n.entries = some w ∧ fragKind v = fragKind w ∧ v ≠ w := by
  unfold modCond
  cases h : findKey k n.entries with
  | none => simp [h]
  | some w =>
    by_cases heq : fragKind v = fragKind w
    · by_cases hv : v = w
      · simp [h, heq, hv]
      · simp [h, heq, hv]
    · simp [h, heq]

theorem mem_diff_deleted (o n : RawObject) (k : String) :
    k ∈ (Diff o n).deleted ↔
      (∃ v, findKey k o.entries = some v) ∧ findKey k n.entries = none := by
  show k ∈ o.entries.filterMap _ ↔ _
  rw [mem_filterMap_guard]
  constructor
  · rintro ⟨v, hmem, hcond⟩
    refine ⟨⟨v, (findKey_eq_some_iff o.nodupKeys k v).mpr hmem⟩, ?_⟩
    simpa [delCond, Option.isNone_iff_eq_none] using hcond
  · rintro ⟨⟨v, hv⟩, hn⟩
    exact ⟨v, (findKey_eq_some_iff o.nodupKeys k v).mp hv,
      by simp [delCond, Option.isNone_iff_eq_none, hn]⟩

theorem mem_diff_typechanged (o n : RawObject) (k : String) :
    k ∈ (Diff o n).typechanged ↔
      ∃ v w, findKey k o.entries = some v ∧ findKey k n.entries = some w ∧
        fragKind v ≠ fragKind w := by
  show k ∈ o.entries.filterMap _ ↔ _
  rw [mem_filterMap_guard]
  constructor
  · rintro ⟨v, hmem, hcond⟩
    obtain ⟨w, hw, hne⟩ := (typCond_eq_true_iff n k v).mp hcond
    exact ⟨v, w, (findKey_eq_some_iff o.nodupKeys k v).mpr hmem, hw, hne⟩
  · rintro ⟨v, w, hv, hw, hne⟩
    exact ⟨v, (findKey_eq_some_iff o.nodupKeys k v).mp hv,
      (typCond_eq_true_iff n k v).mpr ⟨w, hw, hne⟩⟩

theorem mem_diff_modified (o n : RawObject) (k : String) :
    k ∈ (Diff o n).modified ↔
      ∃ v w, findKey k o.entries = some v ∧ findKey k n.entries = some w ∧
        fragKind v = fragKind w ∧ v ≠ w := by
  show k ∈ o.entries.filterMap _ ↔ _
  rw [mem_filterMap_guard]
  constructor
  · rintro ⟨v, hmem, hcond⟩
    obtain ⟨w, hw, heq, hne⟩ := (modCond_eq_true_iff n k v).mp hcond
    exact ⟨v, w, (findKey_eq_some_iff o.nodupKeys k v).mpr hmem, hw, heq, hne⟩
  · rintro ⟨v, w, hv, hw, heq, hne⟩
    exact ⟨v, (findKey_eq_some_iff o.nodupKeys k v).mp hv,
      (modCond_eq_true_iff n k v).mpr ⟨w, hw, heq, hne⟩⟩

theorem mem_diff_added (o n : RawObject) (k : String) :
    k ∈ (Diff o n).added ↔
      (∃ w, findKey k n.entries = some w) ∧ findKey k o.entries = none := by
  show k ∈ n.entries.filterMap _ ↔ _
  rw [mem_filterMap_guard]
  constructor
  · rintro ⟨w, hmem, hcond⟩
    refine ⟨⟨w, (findKey_eq_some_iff n.nodupKeys k w).mpr hmem⟩, ?_⟩
    simpa [addCond, Option.isNone_iff_eq_none] using hcond
  · rintro ⟨⟨w, hw⟩, ho⟩
    exact ⟨w, (findKey_eq_some_iff n.nodupKeys k w).mp hw,
      by simp [addCond, Option.isNone_iff_eq_none, ho]⟩

/-! ### Claim theorems -/

/-- C10: `TypeOf` is total and memory-safe on every input, the empty slice
included: the `data[0]` read never goes out of bounds (the `none`, i.e.
panicking, case of the model never occurs) and the function always returns
either one of the seven element kinds with a `nil` error or the empty kind
with the `not valid json` error. -/
theorem TypeOf_total (data : List Char) :
    ∃ r, TypeOf data = some r ∧
      ((r.2 = some notValidJson ∧ r.1 = "") ∨
        (r.2 = none ∧
          r.1 ∈ (["object", "array", "string", "number", "true", "false", "null"] : List String))) := by
  by_cases hv : valid data = true
  · cases data with
    | nil => exact absurd hv (by decide)
    | cons c r =>
      refine ⟨(kindOfChar c, none), ?_, Or.inr ⟨rfl, ?_⟩⟩
      · simp [TypeOf, hv]
      · unfold kindOfChar heuristics
        split_ifs <;> simp_all
  · rw [Bool.not_eq_true] at hv
    exact ⟨("", some notValidJson), by simp [TypeOf, hv], Or.inl ⟨rfl, rfl⟩⟩

/-- C9: diffing a `RawObject` with itself yields all four categories
empty. -/
theorem Diff_self (x : RawObject) : Diff x x = ⟨[], [], [], []⟩ := by
  have hmk : ∀ kv, kv ∈ x.entries → findKey kv.1 x.entries = some kv.2 := by
    intro kv hmem
    exact (findKey_eq_some_iff x.nodupKeys kv.1 kv.2).mpr hmem
  have ha : (Diff x x).added = [] := by
    show x.entries.filterMap _ = []
    rw [List.filterMap_eq_nil_iff]
    intro kv hmem
    simp [addCond, hmk kv hmem]
  have hd : (Diff x x).deleted = [] := by
    show x.entries.filterMap _ = []
    rw [List.filterMap_eq_nil_iff]
    intro kv hmem
    simp [delCond, hmk kv hmem]
  have hm : (Diff x x).modified = [] := by
    show x.entries.filterMap _ = []
    rw [List.filterMap_eq_nil_iff]
    intro kv hmem
    simp [modCond, hmk kv hmem]
  have ht : (Diff x x).typechanged = [] := by
    show x.entries.filterMap _ = []
    rw [List.filterMap_eq_nil_iff]
    intro kv hmem
    simp [typCond, hmk kv hmem]
  calc Diff x x = ⟨(Diff x x).added, (Diff x x).deleted, (Diff x x).modified,
      (Diff x x).typechanged⟩ := rfl
    _ = ⟨[], [], [], []⟩ := by rw [ha, hd, hm, ht]

/-- C5: each field of `DiffCount` equals the cardinality of the
corresponding key set produced by `Diff` on the same inputs. -/
theorem DiffCount_eq_Diff_card (o n : RawObject) :
    (DiffCount o n).added = (Diff o n).added.toFinset.card ∧
    (DiffCount o n).deleted = (Diff o n).deleted.toFinset.card ∧
    (DiffCount o n).modified = (Diff o n).modified.toFinset.card ∧
    (DiffCount o n).typechanged = (Diff o n).typechanged.toFinset.card := by
  refine ⟨?_, ?_, ?_, ?_⟩
  · show n.entries.countP (addCond o) =
      (n.entries.filterMap (fun kv => if addCond o kv then some kv.1 else none)).toFinset.card
    rw [List.toFinset_card_of_nodup (nodup_filterMap_guard (addCond o) n.entries n.nodupKeys),
      length_filterMap_guard]
  · show o.entries.countP (delCond n) =
      (o.entries.filterMap (fun kv => if delCond n kv then some kv.1 else none)).toFinset.card
    rw [List.toFinset_card_of_nodup (nodup_filterMap_guard (delCond n) o.entries o.nodupKeys),
      length_filterMap_guard]
  · show o.entries.countP (modCond n) =
      (o.entries.filterMap (fun kv => if modCond n kv then some kv.1 else none)).toFinset.card
    rw [List.toFinset_card_of_nodup (nodup_filterMap_guard (modCond n) o.entries o.nodupKeys),
      length_filterMap_guard]
  · show o.entries.countP (typCond n) =
      (o.entries.filterMap (fun kv => if typCond n kv then some kv.1 else none)).toFinset.card
    rw [List.toFinset_card_of_nodup (nodup_filterMap_guard (typCond n) o.entries o.nodupKeys),
      length_filterMap_guard]

/-- C4: the four key lists produced by `Diff` are pairwise disjoint — no
key appears in more than one category. -/
theorem Diff_categories_disjoint (o n : RawObject) :
    (Diff o n).added.Disjoint (Diff o n).deleted ∧
    (Diff o n).added.Disjoint (Diff o n).modified ∧
    (Diff o n).added.Disjoint (Diff o n).typechanged ∧
    (Diff o n).deleted.Disjoint (Diff o n).modified ∧
    (Diff o n).deleted.Disjoint (Diff o n).typechanged ∧
    (Diff o n).modified.Disjoint (Diff o n).typechanged := by
  refine ⟨?_, ?_, ?_, ?_, ?_, ?_⟩ <;> intro k h1 h2
  · obtain ⟨-, ho⟩ := (mem_diff_added o n k).mp h1
    obtain ⟨⟨v, hv⟩, -⟩ := (mem_diff_deleted o n k).mp h2
    rw [ho] at hv
    exact Option.noConfusion hv
  · obtain ⟨-, ho⟩ := (mem_diff_added o n k).mp h1
    obtain ⟨v, w, hv, -, -⟩ := (mem_diff_modified o n k).mp h2
    rw [ho] at hv
    exact Option.noConfusion hv
  · obtain ⟨-, ho⟩ := (mem_diff_added o n k).mp h1
    obtain ⟨v, w, hv, -, -⟩ := (mem_diff_typechanged o n k).mp h2
    rw [ho] at hv
    exact Option.noConfusion hv
  · obtain ⟨-, hn⟩ := (mem_diff_deleted o n k).mp h1
    obtain ⟨v, w, -, hw, -⟩ := (mem_diff_modified o n k).mp h2
    rw [hn] at hw
    exact Option.noConfusion hw
  · obtain ⟨-, hn⟩ := (mem_diff_deleted o n k).mp h1
    obtain ⟨v, w, -, hw, -⟩ := (mem_diff_typechanged o n k).mp h2
    rw [hn] at hw
    exact Option.noConfusion hw
  · obtain ⟨v, w, hv, hw, heq, -⟩ := (mem_diff_modified o n k).mp h1
    obtain ⟨v', w', hv', hw', hne⟩ := (mem_diff_typechanged o n k).mp h2
    rw [hv] at hv'
    rw [hw] at hw'
    cases Option.some.inj hv'
    cases Option.some.inj hw'
    exact hne heq

/-- C4 witness: the disjointness instantiated at the two concrete objects
`⦃a:1, b:2⦄` and `⦃b:2, c:3⦄`. -/
theorem Diff_categories_disjoint_witness :
    ((Diff ⟨[("a", ['1']), ("b", ['2'])], by decide⟩
        ⟨[("b", ['2']), ("c", ['3'])], by decide⟩).added).Disjoint
      ((Diff ⟨[("a", ['1']), ("b", ['2'])], by decide⟩
        ⟨[("b", ['2']), ("c", ['3'])], by decide⟩).deleted) :=
  (Diff_categories_disjoint ⟨[("a", ['1']), ("b", ['2'])], by decide⟩
    ⟨[("b", ['2']), ("c", ['3'])], by decide⟩).1

/-- C2: key classification of `Diff`.  A key of the old object absent from
the new one is deleted; a key of both with fragments of different kinds is
type-changed; with equal kinds but different raw bytes, modified; with
byte-identical fragments it lands in no category; and a key only in the
new object is added. -/
theorem Diff_classification (o n : RawObject) (k : String) :
    (k ∈ (Diff o n).deleted ↔
      (∃ v, findKey k o.entries = some v) ∧ findKey k n.entries = none) ∧
    (k ∈ (Diff o n).typechanged ↔
      ∃ v w, findKey k o.entries = some v ∧ findKey k n.entries = some w ∧
        fragKind v ≠ fragKind w) ∧
    (k ∈ (Diff o n).modified ↔
      ∃ v w, findKey k o.entries = some v ∧ findKey k n.entries = some w ∧
        fragKind v = fragKind w ∧ v ≠ w) ∧
    (k ∈ (Diff o n).added ↔
      (∃ w, findKey k n.entries = some w) ∧ findKey k o.entries = none) ∧
    (∀ v, findKey k o.entries = some v → findKey k n.entries = some v →
      k ∉ (Diff o n).deleted ∧ k ∉ (Diff o n).typechanged ∧
        k ∉ (Diff o n).modified ∧ k ∉ (Diff o n).added) := by
  refine ⟨mem_diff_deleted o n k, mem_diff_typechanged o n k, mem_diff_modified o n k,
    mem_diff_added o n k, ?_⟩
  intro v ho hn
  refine ⟨?_, ?_, ?_, ?_⟩
  · intro hmem
    obtain ⟨-, hnone⟩ := (mem_diff_deleted o n k).mp hmem
    rw [hn] at hnone
    exact Option.noConfusion hnone
  · intro hmem
    obtain ⟨v', w', hv', hw', hne⟩ := (mem_diff_typechanged o n k).mp hmem
    rw [ho] at hv'
    rw [hn] at hw'
    cases Option.some.inj hv'
    cases Option.some.inj hw'
    exact hne rfl
  · intro hmem
    obtain ⟨v', w', hv', hw', -, hne⟩ := (mem_diff_modified o n k).mp hmem
    rw [ho] at hv'
    rw [hn] at hw'
    cases Option.some.inj hv'
    cases Option.some.inj hw'
    exact hne rfl
  · intro hmem
    obtain ⟨-, hnone⟩ := (mem_diff_added o n k).mp hmem
    rw [ho] at hnone
    exact Option.noConfusion hnone

/-- C2 witness: the classification instantiated at `⦃a:1⦄` / `⦃a:2⦄` and
the key `a`, with its hypotheses discharged concretely. -/
theorem Diff_classification_witness :
    "a" ∈ (Diff ⟨[("a", ['1'])], by decide⟩ ⟨[("a", ['2'])], by decide⟩).modified :=
  ((Diff_classification ⟨[("a", ['1'])], by decide⟩ ⟨[("a", ['2'])], by decide⟩ "a").2.2.1).mpr
    ⟨['1'], ['2'], by decide, by decide, by decide, by decide⟩

/-- C8: on syntactically invalid input `TypeOf` returns the
`not valid json` error together with the empty (no) kind, and `Describe`
propagates exactly that error together with the default description. -/
theorem TypeOf_Describe_invalid (data : List Char) (h : valid data = false) :
    TypeOf data = some ("", some notValidJson) ∧
      Describe data = (NewJsonDescription, some notValidJson) := by
  constructor
  · simp [TypeOf, h]
  · simp [Describe, typeOfD, TypeOf, h, NewJsonDescription]

/-- C8 witness: the invalid input `x`. -/
theorem TypeOf_Describe_invalid_witness :
    valid ['x'] = false ∧ TypeOf ['x'] = some ("", some notValidJson) ∧
      Describe ['x'] = (NewJsonDescription, some notValidJson) :=
  ⟨by decide, (TypeOf_Describe_invalid ['x'] (by decide)).1,
    (TypeOf_Describe_invalid ['x'] (by decide)).2⟩

theorem fragKind_of_err (v : List Char) (h : (typeOfD v).2 ≠ none) : fragKind v = "" := by
  by_cases hv : valid v = false
  · simp [fragKind, typeOfD, TypeOf, hv]
  · rw [Bool.not_eq_false] at hv
    cases v with
    | nil => exact absurd hv (by decide)
    | cons c r =>
      exact absurd (by simp [typeOfD, TypeOf, hv]) h

/-- C6: for an error-free description, the member-kind tally of a container
document sums to the number of the container's immediate members (the
entries of the one-level parse, deduplicated by key for objects exactly as
Go's map is), and for every non-container kind the tally is empty. -/
theorem Describe_tally_sum (data : List Char) (h : (Describe data).2 = none) :
    ((Describe data).1.Element = "object" →
      sumTally (Describe data).1.Members = (goMap ((parseObjPairs data).getD [])).length) ∧
    ((Describe data).1.Element = "array" →
      sumTally (Describe data).1.Members = ((parseArrFrags data).getD []).length) ∧
    ((Describe data).1.Element ≠ "object" ∧ (Describe data).1.Element ≠ "array" →
      (Describe data).1.Members = []) := by
  cases he : (typeOfD data).2 with
  | some e =>
    rw [show (Describe data).2 = some e by simp [Describe, he]] at h
    exact Option.noConfusion h
  | none =>
    by_cases ho : (typeOfD data).1 = "object"
    · have hD : Describe data =
          (⟨(typeOfD data).1,
            ((goMap ((parseObjPairs data).getD [])).map (fun kv => fragKind kv.2)).foldl bump []⟩,
            none) := by
        simp [Describe, he, ho]
      rw [hD]
      refine ⟨fun _ => ?_, fun harr => absurd (ho.symm.trans harr) (by decide),
        fun hne => absurd ho hne.1⟩
      rw [sumTally_foldl]
      simp [sumTally]
    · by_cases ha : (typeOfD data).1 = "array"
      · have hD : Describe data =
            (⟨(typeOfD data).1,
              (((parseArrFrags data).getD []).map (fun f => fragKind f)).foldl bump []⟩,
              none) := by
          simp [Describe, he, ho, ha]
        rw [hD]
        refine ⟨fun hobj => absurd (ha.symm.trans hobj) (by decide), fun _ => ?_,
          fun hne => absurd ha hne.2⟩
        rw [sumTally_foldl]
        simp [sumTally]
      · have hD : Describe data = (⟨(typeOfD data).1, []⟩, none) := by
          simp [Describe, he, ho, ha, bump]
        rw [hD]
        exact ⟨fun hobj => absurd hobj ho, fun harr => absurd harr ha, fun _ => rfl⟩

/-- C6 witness: the description of `⦃"a":1,"b":[true,false]⦄` is error-free,
of kind object, and its tally sums to its 2 immediate members. -/
theorem Describe_tally_sum_witness :
    (Describe ['\x7b', '\"', 'a', '\"', ':', '1', ',', '\"', 'b', '\"', ':', '[', 't', 'r', 'u',
      'e', ',', 'f', 'a', 'l', 's', 'e', ']', '\x7d']).2 = none ∧
    (Describe ['\x7b', '\"', 'a', '\"', ':', '1', ',', '\"', 'b', '\"', ':', '[', 't', 'r', 'u',
      'e', ',', 'f', 'a', 'l', 's', 'e', ']', '\x7d']).1.Element = "object" ∧
    sumTally (Describe ['\x7b', '\"', 'a', '\"', ':', '1', ',', '\"', 'b', '\"', ':', '[', 't',
      'r', 'u', 'e', ',', 'f', 'a', 'l', 's', 'e', ']', '\x7d']).1.Members =
      (goMap ((parseObjPairs ['\x7b', '\"', 'a', '\"', ':', '1', ',', '\"', 'b', '\"', ':', '[',
        't', 'r', 'u', 'e', ',', 'f', 'a', 'l', 's', 'e', ']', '\x7d']).getD [])).length :=
  ⟨by decide, by decide,
    (Describe_tally_sum ['\x7b', '\"', 'a', '\"', ':', '1', ',', '\"', 'b', '\"', ':', '[', 't',
      'r', 'u', 'e', ',', 'f', 'a', 'l', 's', 'e', ']', '\x7d'] (by decide)).1 (by decide)⟩

/-- C7 counterexample: `Inventory` on an object whose single member fails
classification returns only the mapping, with the zero kind `""` for the
failed key; the classification error (which does occur, second conjunct) is
not part of the return value — contrary to the claim that the last observed
error is returned alongside the mapping. -/
theorem Inventory_no_error_cex :
    Inventory ⟨[("a", ['x'])], by decide⟩ = [("a", "")] ∧
      (typeOfD ['x']).2 = some notValidJson := by
  decide

/-- C7 amended: `Inventory` classifies the value of every key into a
key-to-kind mapping covering exactly the object's keys; classification
errors are discarded (nothing but the mapping is returned) and a key whose
classification fails is mapped to the default zero kind `""`. -/
theorem Inventory_best_effort (o : RawObject) (k : String) (v : List Char)
    (h : findKey k o.entries = some v) :
    findKey k (Inventory o) = some (fragKind v) ∧
      ((typeOfD v).2 ≠ none → fragKind v = "") ∧
      (Inventory o).map Prod.fst = o.entries.map Prod.fst := by
  refine ⟨?_, fun herr => fragKind_of_err v herr, ?_⟩
  · unfold Inventory
    rw [findKey_map fragKind k o.entries, h]
    rfl
  · unfold Inventory
    rw [List.map_map]
    rfl

/-- C7 witness: the amended statement at the concrete object `⦃a: x⦄`
(invalid member), with its hypotheses discharged concretely. -/
theorem Inventory_best_effort_witness :
    findKey "a" (Inventory ⟨[("a", ['x'])], by decide⟩) = some (fragKind ['x']) ∧
      fragKind ['x'] = "" :=
  ⟨(Inventory_best_effort ⟨[("a", ['x'])], by decide⟩ "a" ['x'] (by decide)).1,
    (Inventory_best_effort ⟨[("a", ['x'])], by decide⟩ "a" ['x'] (by decide)).2.1 (by decide)⟩

/-- C3: for a container description, `Friendly` builds `"<count> <kind>"`
phrases (plural `s` exactly when the count exceeds 1, zero counts omitted)
and joins them: none → `an empty <kind>`, one → `an <kind> with <phrase>`,
two → joined by `and`, three or more → comma-separated with an Oxford comma
before the final `and` item. -/
theorem Friendly_container_format (jd : JsonDescription)
    (h : jd.Element = "object" ∨ jd.Element = "array") :
    (∀ p, p ∈ descElem jd.Members ↔
      ∃ k c, (k, c) ∈ jd.Members ∧ 1 ≤ c ∧
        p = Nat.repr c ++ " " ++ k ++ (if 1 < c then "s" else "")) ∧
    (descElem jd.Members = [] → Friendly jd = "an empty " ++ jd.Element) ∧
    (∀ p, descElem jd.Members = [p] →
      Friendly jd = "an " ++ jd.Element ++ " with " ++ p) ∧
    (∀ p q, descElem jd.Members = [p, q] →
      Friendly jd = "an " ++ jd.Element ++ " with " ++ p ++ " and " ++ q) ∧
    (∀ p q r rest, descElem jd.Members = p :: q :: r :: rest →
      Friendly jd = "an " ++ jd.Element ++ " with " ++
        joinSep ", " (descElem jd.Members).dropLast ++ ", and " ++
          ((descElem jd.Members).getLast?.getD "")) := by
  have h1 : ¬(jd.Element = "string" ∨ jd.Element = "number") := by
    rcases h with h | h <;> rw [h] <;> decide
  have h2 : ¬(jd.Element = "true" ∨ jd.Element = "false" ∨ jd.Element = "null") := by
    rcases h with h | h <;> rw [h] <;> decide
  have hF : Friendly jd =
      (let inv := descElem jd.Members
       let count := inv.length
       if count = 1 then "an " ++ jd.Element ++ " with " ++ inv.getD 0 ""
       else if count = 2 then "an " ++ jd.Element ++ " with " ++ joinSep " and " inv
       else if 2 < count then
         "an " ++ jd.Element ++ " with " ++ joinSep ", " (inv.take (count - 1)) ++
           ", and " ++ inv.getD (count - 1) ""
       else "an empty " ++ jd.Element) := by
    unfold Friendly
    rw [if_neg h1, if_neg h2, if_pos h]
  refine ⟨?_, ?_, ?_, ?_, ?_⟩
  · intro p
    unfold descElem
    rw [List.mem_filterMap]
    constructor
    · rintro ⟨⟨k, c⟩, hmem, hf⟩
      by_cases hgt : 1 < c
      · rw [if_pos hgt] at hf
        refine ⟨k, c, hmem, by omega, ?_⟩
        rw [← Option.some.inj hf, if_pos hgt]
      · by_cases hone : c = 1
        · rw [if_neg hgt, if_pos hone] at hf
          refine ⟨k, c, hmem, by omega, ?_⟩
          rw [if_neg hgt, String.append_empty]
          exact (Option.some.inj hf).symm
        · rw [if_neg hgt, if_neg hone] at hf
          exact Option.noConfusion hf
    · rintro ⟨k, c, hmem, hge, rfl⟩
      refine ⟨(k, c), hmem, ?_⟩
      by_cases hgt : 1 < c
      · rw [if_pos hgt, if_pos hgt]
      · have hone : c = 1 := by omega
        rw [if_neg hgt, if_pos hone, if_neg hgt, String.append_empty]
  · intro hps
    rw [hF]
    simp [hps]
  · intro p hps
    rw [hF]
    simp [hps]
  · intro p q hps
    rw [hF]
    simp [hps, joinSep, String.append_assoc]
  · intro p q r rest hps
    rw [hF]
    simp only [hps]
    have hc1 : ¬((p :: q :: r :: rest).length = 1) := by simp
    have hc2 : ¬((p :: q :: r :: rest).length = 2) := by simp
    have hc3 : 2 < (p :: q :: r :: rest).length := by simp
    rw [if_neg hc1, if_neg hc2, if_pos hc3, List.dropLast_eq_take,
      List.getLast?_eq_getElem?, List.getD_eq_getElem?_getD]

/-- C3 witness: a three-kind tally rendered with the Oxford comma, via the
theorem instantiated at a concrete description. -/
theorem Friendly_container_format_witness :
    Friendly ⟨"object", [("number", 2), ("string", 1), ("null", 1)]⟩ =
      "an object with 2 numbers, 1 string, and 1 null" := by
  have h := (Friendly_container_format ⟨"object", [("number", 2), ("string", 1), ("null", 1)]⟩
    (Or.inl rfl)).2.2.2.2 "2 numbers" "1 string" "1 null" [] (by decide)
  rw [h]
  decide

theorem numStart_props (c : Char) (hc : c = '-' ∨ c.isDigit = true) :
    isWS c = false ∧ c ≠ '\x7b' ∧ c ≠ '[' ∧ c ≠ '\"' ∧ c ≠ 't' ∧ c ≠ 'f' ∧ c ≠ 'n' ∧
      heuristics c = "" := by
  rcases hc with rfl | hd
  · exact ⟨by decide, by decide, by decide, by decide, by decide, by decide, by decide, by decide⟩
  · have hn : ∀ x : Char, x.isDigit = false → c ≠ x := by
      intro x hx heq
      rw [heq] at hd
      rw [hd] at hx
      exact Bool.noConfusion hx
    have hws : isWS c = false := by
      by_contra hw
      rw [Bool.not_eq_false] at hw
      have hcases : ((c = ' ' ∨ c = '\t') ∨ c = '\n') ∨ c = '\r' := by
        simpa [isWS, Bool.or_eq_true, decide_eq_true_eq] using hw
      rcases hcases with ((rfl | rfl) | rfl) | rfl <;> exact absurd hd (by decide)
    refine ⟨hws, hn '\x7b' (by decide), hn '[' (by decide), hn '\"' (by decide),
      hn 't' (by decide), hn 'f' (by decide), hn 'n' (by decide), ?_⟩
    simp [heuristics, hn '\x7b' (by decide), hn '[' (by decide), hn '\"' (by decide),
      hn 't' (by decide), hn 'f' (by decide), hn 'n' (by decide)]

theorem parseNumber_start (c : Char) (r rest : List Char)
    (hp : parseNumber (c :: r) = some rest) : c = '-' ∨ c.isDigit = true := by
  by_cases hminus : c = '-'
  · exact Or.inl hminus
  · right
    by_cases h0 : c = '0'
    · rw [h0]
      decide
    · by_cases hd : c.isDigit = true
      · exact hd
      · exact absurd hp (by simp [parseNumber, hminus, parseNumHead, h0, hd])

/-- C1 counterexample: the input `␣true` (a leading space before the literal
`true`) is syntactically valid JSON whose first non-irrelevant
(non-whitespace) byte is `t`, yet `TypeOf` classifies it as `number`, not
`true`: the classification reads the literal first byte `data[0]`, never
skipping whitespace. -/
theorem TypeOf_leading_ws_cex :
    valid [' ', 't', 'r', 'u', 'e'] = true ∧
      skipWS [' ', 't', 'r', 'u', 'e'] = ['t', 'r', 'u', 'e'] ∧
      TypeOf [' ', 't', 'r', 'u', 'e'] = some ("number", none) ∧
      ("number" : String) ≠ "true" := by
  decide

/-- C1 amended: for every syntactically valid input, `TypeOf` classifies by
the literal first byte `data[0]` through the heuristics table (`\x7b` object,
`[` array, `\"` string, `t` true, `f` false, `n` null, anything else —
leading whitespace included — number); in particular every valid numeric
literal is valid JSON whose first byte is a digit or `-` and is classified
`number`. -/
theorem TypeOf_first_byte (data : List Char) :
    (valid data = true → ∃ c r, data = c :: r ∧ TypeOf data = some (kindOfChar c, none)) ∧
    (isNumericLit data = true → valid data = true ∧ TypeOf data = some ("number", none)) := by
  constructor
  · intro hv
    cases data with
    | nil => exact absurd hv (by decide)
    | cons c r => exact ⟨c, r, rfl, by simp [TypeOf, hv]⟩
  · intro hn
    unfold isNumericLit at hn
    cases hp : parseNumber data with
    | none =>
      rw [hp] at hn
      exact Bool.noConfusion hn
    | some rest =>
      rw [hp] at hn
      cases data with
      | nil =>
        rw [show parseNumber [] = none from rfl] at hp
        exact Option.noConfusion hp
      | cons c r =>
        have hc : c = '-' ∨ c.isDigit = true := parseNumber_start c r rest hp
        have hprops := numStart_props c hc
        have hws : skipWS (c :: r) = c :: r := by simp [skipWS, hprops.1]
        have hpv : pv (fuelFor (c :: r)) PMode.val (c :: r) = some ([], [], rest) := by
          have hfuel : fuelFor (c :: r) = (2 * r.length + 3) + 1 := by
            simp [fuelFor]
            omega
          rw [hfuel]
          simp only [pv]
          rw [if_neg hprops.2.1, if_neg hprops.2.2.1, if_neg hprops.2.2.2.1,
            if_neg hprops.2.2.2.2.1, if_neg hprops.2.2.2.2.2.1, if_neg hprops.2.2.2.2.2.2.1,
            if_pos hc, hp]
          rfl
        have hvalid : valid (c :: r) = true := by
          unfold valid
          rw [hws, hpv]
          simpa using hn
        refine ⟨hvalid, ?_⟩
        have hkind : kindOfChar c = "number" := by
          unfold kindOfChar
          rw [hprops.2.2.2.2.2.2.2]
          rfl
        simp [TypeOf, hvalid, hkind]

/-- C1 witness: the amended statement at the numeric literal `-1.5e2`, both
hypotheses discharged concretely. -/
theorem TypeOf_first_byte_witness :
    valid ['-', '1', '.', '5', 'e', '2'] = true ∧
      isNumericLit ['-', '1', '.', '5', 'e', '2'] = true ∧
      (∃ c r, ['-', '1', '.', '5', 'e', '2'] = c :: r ∧
        TypeOf ['-', '1', '.', '5', 'e', '2'] = some (kindOfChar c, none)) ∧
      TypeOf ['-', '1', '.', '5', 'e', '2'] = some ("number", none) :=
  ⟨by decide, by decide,
    (TypeOf_first_byte ['-', '1', '.', '5', 'e', '2']).1 (by decide),
    ((TypeOf_first_byte ['-', '1', '.', '5', 'e', '2']).2 (by decide)).2⟩

/-! ### Concrete evaluations checking the embedding against the package's
documented behavior (the test vectors of the repository's spec). -/

example : valid [] = false := by decide

example : valid ['\x7b', '\x7d'] = true := by decide

example : valid ['t', 'r', 'u', 'x'] = false := by decide

example : valid ['-', '1', '.', '5', 'e', '+', '2'] = true := by decide

example : valid ['0', '1'] = false := by decide

example :
    valid ['\x7b', '\"', 'a', '\"', ':', ' ', '[', '1', ',', ' ', 'n', 'u', 'l', 'l', ']',
      '\x7d'] = true := by
  decide

example : valid ['[', '1', ',', ']'] = false := by decide

example : valid ['\"', 'a', '\\', 'u', '0', '0', '6', '2', '\"'] = true := by decide

example : TypeOf ['t', 'r', 'u', 'e'] = some ("true", none) := by decide

example : Describe ['\x7b', '\x7d'] = (⟨"object", []⟩, none) := by decide

example : Friendly ⟨"object", []⟩ = "an empty object" := by decide

example :
    Describe ['\x7b', '\"', 'a', '\"', ':', '1', '\x7d'] =
      (⟨"object", [("number", 1)]⟩, none) := by
  decide

example : Friendly ⟨"object", [("number", 1)]⟩ = "an object with 1 number" := by decide

example :
    Describe ['\x7b', '\"', 'a', '\"', ':', '1', ',', '\"', 'b', '\"', ':', '2', ',',
      '\"', 'c', '\"', ':', '\"', 'x', '\"', '\x7d'] =
    (⟨"object", [("number", 2), ("string", 1)]⟩, none) := by
  decide

example :
    Friendly ⟨"object", [("number", 2), ("string", 1)]⟩ =
      "an object with 2 numbers and 1 string" := by
  decide

example :
    Describe ['[', '\"', 'x', '\"', ',', '\"', 'y', '\"', ',', '\"', 'z', '\"', ',', '1', ']'] =
    (⟨"array", [("string", 3), ("number", 1)]⟩, none) := by
  decide

example : Friendly ⟨"true", []⟩ = "a literal true" := by decide

example : Friendly ⟨"string", [("number", 9)]⟩ = "a string" := by decide

example :
    Diff ⟨[("a", ['1']), ("b", ['2'])], by decide⟩ ⟨[("b", ['2']), ("c", ['3'])], by decide⟩ =
      ⟨["c"], ["a"], [], []⟩ := by
  decide

example :
    Diff ⟨[("a", ['1'])], by decide⟩ ⟨[("a", ['\"', '1', '\"'])], by decide⟩ =
      ⟨[], [], [], ["a"]⟩ := by
  decide

example :
    Diff ⟨[("a", ['1'])], by decide⟩ ⟨[("a", ['2'])], by decide⟩ = ⟨[], [], ["a"], []⟩ := by
  decide

example :
    DiffCount ⟨[("a", ['1']), ("b", ['2'])], by decide⟩ ⟨[("b", ['2']), ("c", ['3'])], by decide⟩ =
      ⟨1, 1, 0, 0⟩ := by
  decide

example :
    Inventory ⟨[("a", ['1']), ("b", ['x'])], by decide⟩ = [("a", "number"), ("b", "")] := by
  decide

end JsonDescriber
